import Mathlib

/-!
Shallow embedding of `src/glib_thread_stubs.c`, the single translation unit
of this repository: no-op stand-ins for GLib threading primitives plus a
thread-local key/value store backed by a singly linked list.

Modelling conventions:
* Opaque pointers (`gpointer`, keys, values, lock handles) are `Nat`;
  the C `NULL` pointer is `0`.
* `gboolean` is `Int` with `TRUE = 1`, mirroring `typedef int gboolean`.
* The global `private_list` is made explicit: store operations take the
  list as an argument and return the updated list.
* `malloc` may fail in C; its outcome is an explicit `Bool` argument
  (`allocOk = true` means the allocation succeeds).
-/

/-- Model of the C `NULL` pointer. -/
def NULL : Nat := 0

/-- Model of the C macro `TRUE` (gboolean is `int`). -/
def TRUE : Int := 1

/-- Model of the C macro `FALSE`. -/
def FALSE : Int := 0

/-- One node of the `private_list` linked list (`struct PrivateEntry`):
a key pointer and a value pointer.  The `next` pointer is represented by
list structure. -/
structure PrivateEntry where
  key : Nat
  value : Nat
  deriving Repr, DecidableEq

/-- Keys of the store, in traversal order. -/
def keys (store : List PrivateEntry) : List Nat :=
  store.map PrivateEntry.key

/-- Number of entries of the store whose key is `key`. -/
def countKey (key : Nat) (store : List PrivateEntry) : Nat :=
  (keys store).count key

/-- Uniqueness of keys in the store (the spec invariant). -/
def KeysUnique (store : List PrivateEntry) : Prop :=
  (keys store).Nodup

instance : DecidablePred KeysUnique := fun s =>
  inferInstanceAs (Decidable (keys s).Nodup)

/-- Embedding of `g_private_get`: walk the list; on the first entry whose
key equals `key` (pointer equality) return its value; return `NULL` (0)
when the walk falls off the end. -/
def g_private_get (key : Nat) : List PrivateEntry → Nat
  | [] => NULL
  | e :: rest => if e.key = key then e.value else g_private_get key rest

/-- Embedding of the scan-and-overwrite loop of `g_private_set`: `some s`
when an entry with the key was found and its value overwritten in place
(yielding store `s`), `none` when the loop ran off the end of the list. -/
def setLoop (key value : Nat) : List PrivateEntry → Option (List PrivateEntry)
  | [] => none
  | e :: rest =>
      if e.key = key then some ({ key := e.key, value := value } :: rest)
      else (setLoop key value rest).map (fun r => e :: r)

/-- Embedding of `g_private_set`: scan for the key and overwrite in place;
if not found, `malloc` a new entry (success given by `allocOk`) and prepend
it to the list; on allocation failure do nothing. -/
def g_private_set (key value : Nat) (allocOk : Bool)
    (store : List PrivateEntry) : List PrivateEntry :=
  match setLoop key value store with
  | some s => s
  | none => if allocOk then { key := key, value := value } :: store else store

/-- Embedding of `g_private_replace`, which just calls `g_private_set`. -/
def g_private_replace (key value : Nat) (allocOk : Bool)
    (store : List PrivateEntry) : List PrivateEntry :=
  g_private_set key value allocOk store

/-- Embedding of `g_private_get` as a state transformer on the global
`private_list`: the C loop only reads `entry->key`, `entry->value` and
`entry->next`, and performs no store, so the resulting global state is the
input state. -/
def g_private_get_op (key : Nat) (store : List PrivateEntry) :
    Nat × List PrivateEntry :=
  (g_private_get key store, store)

/-- Store operations, for reasoning about call sequences against the
global `private_list`. -/
inductive StoreOp where
  | get (key : Nat)
  | set (key value : Nat) (allocOk : Bool)
  | replace (key value : Nat) (allocOk : Bool)
  deriving Repr, DecidableEq

/-- Effect of one store operation on the global `private_list`. -/
def runOp (store : List PrivateEntry) : StoreOp → List PrivateEntry
  | .get k => (g_private_get_op k store).2
  | .set k v a => g_private_set k v a store
  | .replace k v a => g_private_replace k v a store

/-- Effect of a sequence of store operations on the global `private_list`. -/
def runOps (ops : List StoreOp) (store : List PrivateEntry) :
    List PrivateEntry :=
  ops.foldl runOp store

/-- Does this operation write (set or replace) the given key? -/
def opWritesKey (op : StoreOp) (key : Nat) : Bool :=
  match op with
  | .get _ => false
  | .set k _ _ => k == key
  | .replace k _ _ => k == key

/- ---------- no-op stubs ---------- -/

/-- Embedding of `g_mutex_trylock`: always returns `TRUE`. -/
def g_mutex_trylock (mutex : Nat) : Int := TRUE

/-- Embedding of `g_rw_lock_writer_trylock`: always returns `TRUE`. -/
def g_rw_lock_writer_trylock (rw_lock : Nat) : Int := TRUE

/-- Embedding of `g_rw_lock_reader_trylock`: always returns `TRUE`. -/
def g_rw_lock_reader_trylock (rw_lock : Nat) : Int := TRUE

/-- Embedding of `g_rec_mutex_trylock`: always returns `TRUE`. -/
def g_rec_mutex_trylock (rec_mutex : Nat) : Int := TRUE

/-- Embedding of `g_cond_wait_until`: ignores all arguments and returns
`TRUE`. -/
def g_cond_wait_until (cond : Nat) (mutex : Nat) (end_time : Int) : Int :=
  TRUE

/-- Model of the C `GError` struct (domain, code, message). -/
structure GError where
  domain : Int
  code : Int
  message : String
  deriving Repr, DecidableEq

/-- Embedding of `g_system_thread_new`: the error-output cell (`GError **`,
modelled as the `GError*` it points to, `Option GError`) is passed in and
the body never stores through it; the function returns `NULL` and the cell
unchanged. -/
def g_system_thread_new (proxy : Nat) (stack_size : Nat) (name : Nat)
    (func : Nat) (data : Nat) (error : Option GError) :
    Nat × Option GError :=
  (NULL, error)

/-- Embedding of `g_thread_pool_set_max_unused_threads`: the body ignores
its argument and touches no global state (the only global is
`private_list`), so it is the identity on the global state. -/
def g_thread_pool_set_max_unused_threads (max_threads : Int)
    (store : List PrivateEntry) : List PrivateEntry :=
  store

/-- Embedding of `g_thread_pool_get_max_unused_threads`: returns 0. -/
def g_thread_pool_get_max_unused_threads (store : List PrivateEntry) : Nat :=
  0

/-- Embedding of `g_thread_pool_get_num_unused_threads`: returns 0. -/
def g_thread_pool_get_num_unused_threads (store : List PrivateEntry) : Nat :=
  0

/- ---------- helper lemmas about the store ---------- -/

theorem setLoop_eq_none_iff (k v : Nat) (s : List PrivateEntry) :
    setLoop k v s = none ↔ k ∉ keys s := by
  induction s with
  | nil => simp [setLoop, keys]
  | cons e rest ih =>
      by_cases h : e.key = k
      · simp [setLoop, h, keys]
      · simp [setLoop, h, keys, Option.map_eq_none]
        constructor
        · intro hn
          rcases hn with hn
          have := (ih).mp hn
          simp [keys] at this
          exact ⟨fun hk => h hk.symm, this⟩
        · intro ⟨_, hrest⟩
          apply (ih).mpr
          simp [keys]
          exact hrest

theorem get_of_setLoop {k v : Nat} {s s2 : List PrivateEntry}
    (h : setLoop k v s = some s2) : g_private_get k s2 = v := by
  induction s generalizing s2 with
  | nil => simp [setLoop] at h
  | cons e rest ih =>
      by_cases he : e.key = k
      · simp [setLoop, he] at h
        subst h
        simp [g_private_get, he]
      · simp [setLoop, he] at h
        rcases h with ⟨r, hr, hs2⟩
        subst hs2
        simp [g_private_get, he]
        exact ih hr

theorem keys_of_setLoop {k v : Nat} {s s2 : List PrivateEntry}
    (h : setLoop k v s = some s2) : keys s2 = keys s := by
  induction s generalizing s2 with
  | nil => simp [setLoop] at h
  | cons e rest ih =>
      by_cases he : e.key = k
      · simp [setLoop, he] at h
        subst h
        simp [keys]
        exact he.symm
      · simp [setLoop, he] at h
        rcases h with ⟨r, hr, hs2⟩
        subst hs2
        simp [keys] at ih ⊢
        exact ih hr

theorem g_private_set_of_not_mem_true {k : Nat} (v : Nat)
    {s : List PrivateEntry} (h : k ∉ keys s) :
    g_private_set k v true s = { key := k, value := v } :: s := by
  have hn : setLoop k v s = none := (setLoop_eq_none_iff k v s).mpr h
  simp [g_private_set, hn]

theorem g_private_set_of_not_mem_false {k : Nat} (v : Nat)
    {s : List PrivateEntry} (h : k ∉ keys s) :
    g_private_set k v false s = s := by
  have hn : setLoop k v s = none := (setLoop_eq_none_iff k v s).mpr h
  simp [g_private_set, hn]

theorem setLoop_isSome_of_mem {k : Nat} (v : Nat) {s : List PrivateEntry}
    (h : k ∈ keys s) : ∃ s2, setLoop k v s = some s2 := by
  cases hs : setLoop k v s with
  | none => exact absurd h ((setLoop_eq_none_iff k v s).mp hs)
  | some s2 => exact ⟨s2, rfl⟩

theorem keys_set_of_mem {k : Nat} (v : Nat) (a : Bool)
    {s : List PrivateEntry} (h : k ∈ keys s) :
    keys (g_private_set k v a s) = keys s := by
  rcases setLoop_isSome_of_mem v h with ⟨s2, hs2⟩
  simp [g_private_set, hs2]
  exact keys_of_setLoop hs2

theorem get_set_same (k v : Nat) (s : List PrivateEntry) :
    g_private_get k (g_private_set k v true s) = v := by
  cases hs : setLoop k v s with
  | none =>
      simp [g_private_set, hs, g_private_get]
  | some s2 =>
      simp [g_private_set, hs]
      exact get_of_setLoop hs

theorem mem_keys_set_true (k v : Nat) (s : List PrivateEntry) :
    k ∈ keys (g_private_set k v true s) := by
  by_cases h : k ∈ keys s
  · rw [keys_set_of_mem v true h]; exact h
  · rw [g_private_set_of_not_mem_true v h]
    simp [keys]

theorem keys_unique_set (k v : Nat) (a : Bool) {s : List PrivateEntry}
    (h : KeysUnique s) : KeysUnique (g_private_set k v a s) := by
  by_cases hm : k ∈ keys s
  · unfold KeysUnique
    rw [keys_set_of_mem v a hm]
    exact h
  · cases a with
    | true =>
        unfold KeysUnique
        rw [g_private_set_of_not_mem_true v hm]
        simp only [KeysUnique, keys] at h hm ⊢
        simp only [List.map_cons, List.nodup_cons]
        exact ⟨hm, h⟩
    | false =>
        unfold KeysUnique
        rw [g_private_set_of_not_mem_false v hm]
        exact h

theorem get_of_not_mem {k : Nat} {s : List PrivateEntry}
    (h : k ∉ keys s) : g_private_get k s = NULL := by
  induction s with
  | nil => simp [g_private_get]
  | cons e rest ih =>
      simp [keys] at h
      have he : e.key ≠ k := fun hk => h.1 hk.symm
      simp [g_private_get, he]
      exact ih (by simp [keys]; exact h.2)

theorem keys_set_subset (k v : Nat) (a : Bool) (s : List PrivateEntry) :
    keys (g_private_set k v a s) ⊆ k :: keys s := by
  by_cases hm : k ∈ keys s
  · rw [keys_set_of_mem v a hm]
    exact List.subset_cons_self _ _
  · cases a with
    | true =>
        rw [g_private_set_of_not_mem_true v hm]
        simp [keys]
    | false =>
        rw [g_private_set_of_not_mem_false v hm]
        exact List.subset_cons_self _ _

theorem not_mem_keys_runOp {k : Nat} {s : List PrivateEntry} {op : StoreOp}
    (hop : opWritesKey op k = false) (h : k ∉ keys s) :
    k ∉ keys (runOp s op) := by
  cases op with
  | get k2 => exact h
  | set k2 v a =>
      simp [opWritesKey] at hop
      intro hmem
      have := keys_set_subset k2 v a s hmem
      simp at this
      rcases this with h1 | h2
      · exact hop h1.symm
      · exact h h2
  | replace k2 v a =>
      simp [opWritesKey] at hop
      intro hmem
      have := keys_set_subset k2 v a s hmem
      simp at this
      rcases this with h1 | h2
      · exact hop h1.symm
      · exact h h2

theorem not_mem_keys_runOps {k : Nat} {ops : List StoreOp}
    (hop : ∀ op ∈ ops, opWritesKey op k = false) :
    ∀ {s : List PrivateEntry}, k ∉ keys s → k ∉ keys (runOps ops s) := by
  induction ops with
  | nil => intro s h; exact h
  | cons op rest ih =>
      intro s h
      have h1 : opWritesKey op k = false := hop op (List.mem_cons_self op rest)
      have h2 : ∀ o ∈ rest, opWritesKey o k = false :=
        fun o ho => hop o (List.mem_cons_of_mem op ho)
      exact ih h2 (not_mem_keys_runOp h1 h)

theorem keys_unique_runOp {s : List PrivateEntry} (op : StoreOp)
    (h : KeysUnique s) : KeysUnique (runOp s op) := by
  cases op with
  | get k2 => exact h
  | set k2 v a => exact keys_unique_set k2 v a h
  | replace k2 v a => exact keys_unique_set k2 v a h

theorem keys_unique_runOps (ops : List StoreOp) :
    ∀ {s : List PrivateEntry}, KeysUnique s → KeysUnique (runOps ops s) := by
  induction ops with
  | nil => intro s h; exact h
  | cons op rest ih =>
      intro s h
      exact ih (keys_unique_runOp op h)

theorem set_indep_alloc_of_mem {k : Nat} (v : Nat) (a : Bool)
    {s : List PrivateEntry} (h : k ∈ keys s) :
    g_private_set k v a s = g_private_set k v true s := by
  rcases setLoop_isSome_of_mem v h with ⟨s2, hs2⟩
  simp [g_private_set, hs2]

/- ---------- claim theorems ---------- -/

/-- C1: for every key `k` and value `v`, `g_private_set k v` followed
immediately by `g_private_get k` returns `v`, provided the `malloc` inside
`set` succeeds (on an absent key, allocation failure makes `set` a no-op;
that case is the subject of C4). -/
theorem set_then_get_returns_value (k v : Nat) (allocOk : Bool)
    (store : List PrivateEntry) (h : allocOk = true) :
    g_private_get k (g_private_set k v allocOk store) = v := by
  subst h
  exact get_set_same k v store

theorem set_then_get_returns_value_witness :
    g_private_get 1 (g_private_set 1 2 true []) = 2 :=
  set_then_get_returns_value 1 2 true [] rfl

/-- C2: on a store with unique keys, `set k v1; set k v2` leaves exactly
one entry for `k` (the existing entry is overwritten in place, no duplicate
is created) and a subsequent `get k` returns `v2`; moreover key uniqueness
is an invariant preserved by every operation sequence from the empty
store. -/
theorem set_overwrites_in_place (k v1 v2 : Nat) (store : List PrivateEntry)
    (ops : List StoreOp) (h : KeysUnique store) :
    g_private_get k (g_private_set k v2 true (g_private_set k v1 true store)) = v2 ∧
    countKey k (g_private_set k v2 true (g_private_set k v1 true store)) = 1 ∧
    KeysUnique (runOps ops []) := by
  have h1 : KeysUnique (g_private_set k v1 true store) :=
    keys_unique_set k v1 true h
  have hm : k ∈ keys (g_private_set k v1 true store) :=
    mem_keys_set_true k v1 store
  refine ⟨get_set_same k v2 _, ?_, ?_⟩
  · unfold countKey
    rw [keys_set_of_mem v2 true hm]
    exact List.count_eq_one_of_mem h1 hm
  · exact keys_unique_runOps ops (by simp [KeysUnique, keys])

theorem set_overwrites_in_place_witness :
    g_private_get 1 (g_private_set 1 3 true (g_private_set 1 2 true [])) = 3 ∧
    countKey 1 (g_private_set 1 3 true (g_private_set 1 2 true [])) = 1 ∧
    KeysUnique (runOps [StoreOp.set 1 2 true, StoreOp.set 1 3 true, StoreOp.get 1] []) :=
  set_overwrites_in_place 1 2 3 []
    [StoreOp.set 1 2 true, StoreOp.set 1 3 true, StoreOp.get 1] (by decide)

/-- C3: for a key `k` never written (no `set` or `replace` with key `k` in
the operation sequence from the empty store, whatever the allocation
outcomes), `g_private_get k` returns the sentinel `NULL`; in particular
`get` on the empty store returns `NULL` for every key. -/
theorem get_unset_key_returns_null (k : Nat) (ops : List StoreOp)
    (h : ∀ op ∈ ops, opWritesKey op k = false) :
    g_private_get k (runOps ops []) = NULL ∧ g_private_get k [] = NULL := by
  refine ⟨?_, rfl⟩
  exact get_of_not_mem (not_mem_keys_runOps h (by simp [keys]))

theorem get_unset_key_returns_null_witness :
    g_private_get 1
      (runOps [StoreOp.set 2 5 true, StoreOp.get 1, StoreOp.replace 3 7 false] []) = NULL ∧
    g_private_get 1 [] = NULL :=
  get_unset_key_returns_null 1
    [StoreOp.set 2 5 true, StoreOp.get 1, StoreOp.replace 3 7 false] (by decide)

/-- C4: when `malloc` fails during `g_private_set` on a key not present in
the store, the operation leaves the store exactly unchanged (and surfaces
no error, the C function being `void`); and when the key is already
present, `set` never reaches the allocation, so its result does not depend
on the allocation outcome. -/
theorem set_alloc_failure_noop (k v k2 v2 : Nat) (store s2 : List PrivateEntry)
    (h : k ∉ keys store) (h2 : k2 ∈ keys s2) :
    g_private_set k v false store = store ∧
    g_private_set k2 v2 false s2 = g_private_set k2 v2 true s2 :=
  ⟨g_private_set_of_not_mem_false v h, set_indep_alloc_of_mem v2 false h2⟩

theorem set_alloc_failure_noop_witness :
    g_private_set 1 5 false [] = [] ∧
    g_private_set 2 6 false [{ key := 2, value := 9 }] =
      g_private_set 2 6 true [{ key := 2, value := 9 }] :=
  set_alloc_failure_noop 1 5 2 6 [] [{ key := 2, value := 9 }]
    (by decide) (by decide)

/-- C5: `g_private_replace` is the same function as `g_private_set`: for
every key, value, allocation outcome and store it produces the identical
resulting store (and, like `set`, returns nothing). -/
theorem replace_equals_set :
    g_private_replace = g_private_set :=
  rfl

/-- C6: the "absent" sentinel returned by `g_private_get` is the `NULL`
pointer, so a key bound to `NULL` is indistinguishable from an unset key:
after `set k NULL` (whatever the allocation outcome), `get k` returns the
same result as `get` of a never-set key on the empty store. -/
theorem set_null_indistinguishable_from_unset (k : Nat) (a : Bool)
    (store : List PrivateEntry) :
    g_private_get k (g_private_set k NULL a store) = g_private_get k [] := by
  show g_private_get k (g_private_set k NULL a store) = NULL
  cases hs : setLoop k NULL store with
  | some s2 =>
      simp [g_private_set, hs]
      exact get_of_setLoop hs
  | none =>
      have hnm : k ∉ keys store := (setLoop_eq_none_iff k NULL store).mp hs
      cases a with
      | true =>
          rw [g_private_set_of_not_mem_true NULL hnm]
          simp [g_private_get]
      | false =>
          rw [g_private_set_of_not_mem_false NULL hnm]
          exact get_of_not_mem hnm

/-- C7: `g_system_thread_new` returns a `NULL` handle for every combination
of arguments and leaves the `GError**` output cell exactly as it was. -/
theorem system_thread_new_null_no_error (proxy stack_size name func data : Nat)
    (error : Option GError) :
    g_system_thread_new proxy stack_size name func data error = (NULL, error) :=
  rfl

/-- C8: every trylock stub (`g_mutex_trylock`, `g_rw_lock_writer_trylock`,
`g_rw_lock_reader_trylock`, `g_rec_mutex_trylock`) and the timed wait
`g_cond_wait_until` returns `TRUE` on every call, for all arguments; the
stubs read no state, so this holds in any call sequence. -/
theorem trylocks_always_succeed (m rwW rwR rm c cm : Nat) (t : Int) :
    g_mutex_trylock m = TRUE ∧
    g_rw_lock_writer_trylock rwW = TRUE ∧
    g_rw_lock_reader_trylock rwR = TRUE ∧
    g_rec_mutex_trylock rm = TRUE ∧
    g_cond_wait_until c cm t = TRUE :=
  ⟨rfl, rfl, rfl, rfl, rfl⟩

/-- C9: `g_thread_pool_get_max_unused_threads` and
`g_thread_pool_get_num_unused_threads` return 0 after any sequence of
`g_thread_pool_set_max_unused_threads` calls with any arguments, from any
global state. -/
theorem thread_pool_getters_return_zero (calls : List Int)
    (store : List PrivateEntry) :
    g_thread_pool_get_max_unused_threads
      (calls.foldl (fun st a => g_thread_pool_set_max_unused_threads a st) store) = 0 ∧
    g_thread_pool_get_num_unused_threads
      (calls.foldl (fun st a => g_thread_pool_set_max_unused_threads a st) store) = 0 :=
  ⟨rfl, rfl⟩

/-- C10: `g_private_get` has no side effects and never fails: as a state
transformer it returns the store unchanged, and inserting a `get` anywhere
in an operation sequence does not change the resulting store. -/
theorem get_has_no_side_effects (k : Nat) (pre post : List StoreOp)
    (store : List PrivateEntry) :
    (g_private_get_op k store).2 = store ∧
    runOps (pre ++ StoreOp.get k :: post) store = runOps (pre ++ post) store := by
  refine ⟨rfl, ?_⟩
  simp only [runOps, List.foldl_append, List.foldl_cons]
  rfl
